import Mathlib

/-!
Verification development for `scripts/molecular_mechanics/mmlib/simulate.py`.

The module drives molecular-dynamics (`Simulation.run_md`) and Metropolis
Monte-Carlo (`Simulation.run_mc`) simulations.  We embed the control flow and
the per-particle arithmetic of that file:

* the output-scheduling layer (`check_print_md` / `check_print_mc`,
  `check_disp`, `open_output_files` / `close_output_files`) is modelled over
  `ℕ` / `ℚ` with an explicit trace of emitted events, so every run model is
  executable and concrete runs can be settled by `decide`;
* the wall-clock status interval (`time.time() - self.stime > self.statustime`)
  is abstracted into a boolean oracle, and the accept/reject draw of a Monte
  Carlo trial into an `Option Bool` oracle (`none` models the energy model
  raising an exception at that trial);
* the per-particle kinematics (`update_accs`, `update_vels`, `update_coords`,
  `disp_coords`, `zero_vels`, `initialize_vels`, `equilibrate_temp`) and the
  Metropolis / adaptive-displacement formulas (`bf`, `changedisp`) are embedded
  over `ℝ`, with the Gaussian draws and the energy model's readings passed in
  as oracles.

Floating point arithmetic of the source is modelled by exact `ℚ`/`ℝ`
arithmetic.
-/

namespace Simulate

/-- Output events observable through the geometry/energy files and stdout:
an energy row (`print_energy`), a geometry snapshot (`print_geom`), a status
line (`print_status`), the file flushes done by `print_status`, and the
closing of the two output files (`close_output_files`). -/
inductive Ev where
  | energy
  | geom
  | status
  | flushed
  | closed
  deriving DecidableEq

/-- Result of a fuel-bounded run of a simulation loop: the loop guard became
false (`finished`), the energy model raised an exception that propagates out
of the loop (`failed`), or the model's fuel ran out with the guard still true
(`fuelOut`, a model artifact standing for "still running"). -/
inductive Status where
  | finished
  | failed
  | fuelOut
  deriving DecidableEq

/-- Model of `Simulation.check_print_mc` (simulate.py lines 343-360): given the
printing thresholds `energyconf`/`geomconf`, the abstracted wall-clock status
predicate, the `n_conf` increment and the `print_all` flag, it transforms the
`econf`/`gconf` counters and returns the list of events emitted, in source
order (energy row, geometry snapshot, status print with its flushes); both
counters are incremented by `n_conf` afterwards. -/
def check_print_mc (energyconf geomconf : ℕ) (statusDue : Bool) (n_conf : ℕ)
    (print_all : Bool) (econf gconf : ℕ) : ℕ × ℕ × List Ev :=
  let pE := if print_all = true ∨ energyconf ≤ econf then (0, [Ev.energy]) else (econf, [])
  let pG := if print_all = true ∨ geomconf ≤ gconf then (0, [Ev.geom]) else (gconf, [])
  let pS : List Ev :=
    if print_all = true ∨ statusDue = true then [Ev.status, Ev.flushed] else []
  (pE.1 + n_conf, pG.1 + n_conf, pE.2 ++ pG.2 ++ pS)

/-- State of a Monte-Carlo run: the accepted-configuration counter `conf`, the
acceptance-window counters `n_accept`/`n_reject`, the output-scheduling
counters `econf`/`gconf`/`dconf`, the 1-based index `trial` of the next trial
(a model artifact used to index the oracles and record controller calls), the
output-event trace, and the list of trial numbers at which `changedisp` was
invoked. -/
structure MCSt where
  conf : ℕ
  n_accept : ℕ
  n_reject : ℕ
  econf : ℕ
  gconf : ℕ
  dconf : ℕ
  trial : ℕ
  events : List Ev
  dispUpdates : List ℕ

/-- Model of `Simulation.check_disp` (simulate.py lines 362-367): when
`dconf >= dispconf`, invoke `changedisp` (which zeroes `n_accept`/`n_reject`;
the invocation is recorded with the current trial number) and reset `dconf`
to 0; afterwards `dconf` is incremented, so after an invocation it is 1. -/
def check_disp (dispconf : ℕ) (s : MCSt) : MCSt :=
  if dispconf ≤ s.dconf then
    { s with n_accept := 0, n_reject := 0, dconf := 1,
             dispUpdates := s.dispUpdates ++ [s.trial] }
  else
    { s with dconf := s.dconf + 1 }

/-- One trial body of `Simulation.run_mc` (simulate.py lines 210-223), with the
accept/reject decision `accept` abstracting `bf >= numpy.random.random()`.
On accept: `check_print_mc(1)`, `conf += 1`, `n_accept += 1` (the coordinate
displacement and `penergy` update are kinematic/energetic effects outside this
scheduling state).  On reject: the displacement is reversed and
`n_reject += 1`.  Either way `check_disp` runs, and the model's trial index
advances. -/
def mc_trial (energyconf geomconf dispconf : ℕ) (statusDue : Bool) (accept : Bool)
    (s : MCSt) : MCSt :=
  let s1 :=
    if accept then
      let r := check_print_mc energyconf geomconf statusDue 1 false s.econf s.gconf
      { s with econf := r.1, gconf := r.2.1, events := s.events ++ r.2.2,
               conf := s.conf + 1, n_accept := s.n_accept + 1 }
    else
      { s with n_reject := s.n_reject + 1 }
  let s2 := check_disp dispconf s1
  { s2 with trial := s2.trial + 1 }

/-- Fuel-bounded model of the `while (self.conf < self.totconfs)` loop of
`Simulation.run_mc` (simulate.py lines 209-223).  `outcome t = none` models
the energy model raising an exception during trial `t` (the exception
propagates: the loop stops with `Status.failed`); `outcome t = some b` is the
Metropolis accept/reject decision of trial `t`. -/
def mc_loop (totconfs dispconf energyconf geomconf : ℕ) (outcome : ℕ → Option Bool)
    (statusDue : ℕ → Bool) : ℕ → MCSt → MCSt × Status
  | 0, s => if s.conf < totconfs then (s, Status.fuelOut) else (s, Status.finished)
  | fuel + 1, s =>
    if s.conf < totconfs then
      match outcome s.trial with
      | none => (s, Status.failed)
      | some accept =>
        mc_loop totconfs dispconf energyconf geomconf outcome statusDue fuel
          (mc_trial energyconf geomconf dispconf (statusDue s.trial) accept s)
    else (s, Status.finished)

/-- Start state of `Simulation.run_mc` (simulate.py lines 203-208):
`open_output_files` zeroes `gconf`, `econf`, `dconf`; `conf`, `n_accept` and
`n_reject` are 0 from `__init__`; then `check_print_mc(0, True)` is the one
forced output call. -/
def mc_start (energyconf geomconf : ℕ) (statusDue0 : Bool) : MCSt :=
  let r := check_print_mc energyconf geomconf statusDue0 0 true 0 0
  { conf := 0, n_accept := 0, n_reject := 0, econf := r.1, gconf := r.2.1,
    dconf := 0, trial := 1, events := r.2.2, dispUpdates := [] }

/-- Model of `Simulation.run_mc` (simulate.py lines 193-225).  After the loop
exits normally, the source executes `self.check_print_mc(0)` — with
`print_all` left at its default `False` — and then `close_output_files`,
which calls `print_status` (status line plus flushes of both files) and closes
the two files.  A failure propagating out of the loop skips all of that. -/
def run_mc (totconfs dispconf energyconf geomconf : ℕ) (outcome : ℕ → Option Bool)
    (statusDue : ℕ → Bool) (statusDue0 statusDueF : Bool) (fuel : ℕ) : MCSt × Status :=
  let p := mc_loop totconfs dispconf energyconf geomconf outcome statusDue fuel
    (mc_start energyconf geomconf statusDue0)
  if p.2 = Status.finished then
    let r := check_print_mc energyconf geomconf statusDueF 0 false p.1.econf p.1.gconf
    ({ p.1 with
        econf := r.1,
        gconf := r.2.1,
        events := p.1.events ++ r.2.2 ++ [Ev.status, Ev.flushed, Ev.closed] },
      Status.finished)
  else p

/-- Model of `Simulation.check_print_md` (simulate.py lines 324-341), over
exact rationals: the `etime`/`gtime` accumulators are compared against the
printing intervals, reset to `10**-10` on printing, and incremented by
`timestep` afterwards.  Returns the new accumulators and the emitted events in
source order. -/
def check_print_md (energytime geomtime : ℚ) (statusDue : Bool) (timestep : ℚ)
    (print_all : Bool) (etime gtime : ℚ) : ℚ × ℚ × List Ev :=
  let pE := if print_all = true ∨ energytime ≤ etime then ((1 : ℚ) / 10 ^ 10, [Ev.energy])
    else (etime, [])
  let pG := if print_all = true ∨ geomtime ≤ gtime then ((1 : ℚ) / 10 ^ 10, [Ev.geom])
    else (gtime, [])
  let pS : List Ev :=
    if print_all = true ∨ statusDue = true then [Ev.status, Ev.flushed] else []
  (pE.1 + timestep, pG.1 + timestep, pE.2 ++ pG.2 ++ pS)

/-- State of a molecular-dynamics run: the simulated time, the two output
accumulators, the count of executed stepping iterations (a model artifact),
and the output-event trace. -/
structure MDSt where
  time : ℚ
  etime : ℚ
  gtime : ℚ
  steps : ℕ
  events : List Ev

/-- Fuel-bounded model of the `while (self.time < self.tottime)` loop of
`Simulation.run_md` (simulate.py lines 180-189).  `fail k = true` models the
energy model or gradient raising an exception during iteration `k` (the body's
kinematic updates are modelled separately); otherwise the body ends with
`check_print_md(self.timestep)` and `self.time += self.timestep`. -/
def md_steploop (tottime timestep energytime geomtime : ℚ) (statusDue : ℕ → Bool)
    (fail : ℕ → Bool) : ℕ → MDSt → MDSt × Status
  | 0, s => if s.time < tottime then (s, Status.fuelOut) else (s, Status.finished)
  | fuel + 1, s =>
    if s.time < tottime then
      if fail s.steps then (s, Status.failed)
      else
        let r := check_print_md energytime geomtime (statusDue s.steps) timestep false
          s.etime s.gtime
        md_steploop tottime timestep energytime geomtime statusDue fail fuel
          { time := s.time + timestep, etime := r.1, gtime := r.2.1,
            steps := s.steps + 1, events := s.events ++ r.2.2 }
    else (s, Status.finished)

/-- Start state of `Simulation.run_md` (simulate.py lines 164-179): `self.time`
starts at `10**-10` (`__init__`, line 91), `open_output_files` sets
`etime = gtime = 10**-10`, and one forced `check_print_md(0.0, True)` runs
before the loop (the velocity initialization, first gradient/acceleration and
half-step velocity update are kinematic effects modelled separately). -/
def md_start (energytime geomtime : ℚ) (statusDue0 : Bool) : MDSt :=
  let r0 := check_print_md energytime geomtime statusDue0 0 true
    ((1 : ℚ) / 10 ^ 10) ((1 : ℚ) / 10 ^ 10)
  { time := (1 : ℚ) / 10 ^ 10, etime := r0.1, gtime := r0.2.1, steps := 0,
    events := r0.2.2 }

/-- Model of `Simulation.run_md` (simulate.py lines 164-191): after the loop
exits normally the source executes `self.check_print_md(self.timestep)` —
`print_all` defaulting to `False` — then `close_output_files` (status print,
flushes, closing both files).  A propagating failure skips all of that. -/
def run_md (tottime timestep energytime geomtime : ℚ) (statusDue : ℕ → Bool)
    (fail : ℕ → Bool) (statusDue0 statusDueF : Bool) (fuel : ℕ) : MDSt × Status :=
  let p := md_steploop tottime timestep energytime geomtime statusDue fail fuel
    (md_start energytime geomtime statusDue0)
  if p.2 = Status.finished then
    let r := check_print_md energytime geomtime statusDueF timestep false p.1.etime p.1.gtime
    ({ p.1 with
        etime := r.1,
        gtime := r.2.1,
        events := p.1.events ++ r.2.2 ++ [Ev.status, Ev.flushed, Ev.closed] },
      Status.finished)
  else p

/-- The time/iteration skeleton of the MD stepping loop: from time `t`, while
`t < tottime`, add `timestep` and count one iteration.  `md_steploop` follows
exactly this evolution on its `time` and `steps` fields. -/
def md_count (tottime timestep : ℚ) : ℕ → ℚ → ℚ × ℕ
  | 0, t => (t, 0)
  | fuel + 1, t =>
    if t < tottime then
      let r := md_count tottime timestep fuel (t + timestep)
      (r.1, r.2 + 1)
    else (t, 0)

/-- The `(dconf, trial, dispUpdates)` evolution of one Monte-Carlo trial:
`check_disp` followed by the advance of the trial index.  Mirrors
`Simulation.check_disp` (simulate.py lines 362-367). -/
def dstep (dispconf : ℕ) (p : ℕ × ℕ × List ℕ) : ℕ × ℕ × List ℕ :=
  if dispconf ≤ p.1 then (1, p.2.1 + 1, p.2.2 ++ [p.2.1])
  else (p.1 + 1, p.2.1 + 1, p.2.2)

/-- Closed form of the `dconf` counter after `n` trials (starting from 0):
0 for `n = 0`, otherwise `(n - 1) % dispconf + 1`. -/
def dAfter (dispconf n : ℕ) : ℕ := if n = 0 then 0 else (n - 1) % dispconf + 1

/-- Closed form of the list of trial numbers (within the first `n` trials) at
which `check_disp` invokes `changedisp`: the trials `k * dispconf + 1` with
`k ≥ 1`. -/
def fires (dispconf n : ℕ) : List ℕ :=
  (List.range n).filterMap fun m =>
    if 1 ≤ m ∧ dispconf ∣ m then some (m + 1) else none

/-- One per-component step of `Simulation.get_rand_disp` (simulate.py lines
158-162): two consecutive draws are taken from the stream; the first
(`randval`, line 161) is bound but never used, the second is stored into
component `(i, j)` of the displacement array, and the stream position advances
by two. -/
def rand_step {α : Type} (stream : ℕ → α) (i : ℕ) (t : ((ℕ × ℕ) → α) × ℕ) (j : ℕ) :
    ((ℕ × ℕ) → α) × ℕ :=
  let randval := stream t.2
  (Function.update t.1 (i, j) (stream (t.2 + 1)), t.2 + 2)

/-- Model of `Simulation.get_rand_disp` (simulate.py lines 151-162): the
displacement array starts as zeros and, for every atom `i < n_atoms` and every
component `j < 3`, is filled by `rand_step`.  The Gaussian generator is
modelled as a stream of abstract draws indexed by position. -/
def get_rand_disp {α : Type} [Zero α] (n_atoms : ℕ) (stream : ℕ → α) (pos : ℕ) :
    ((ℕ × ℕ) → α) × ℕ :=
  (List.range n_atoms).foldl
    (fun s i => (List.range 3).foldl (rand_step stream i) s)
    (fun _ => 0, pos)

/-- Conversion constant `acc_conv()` (simulate.py lines 16-18), from
kcal/(Angstrom*g) to Angstrom/ps^2. -/
noncomputable def acc_conv : ℝ := 418.400000

/-- The Metropolis factor of one `run_mc` trial (simulate.py line 214):
`bf = math.exp(min(1.0, -1.0*delta_e / (energy.kb()*self.temp)))`.  The module
`mmlib.energy` is external to this file, so the Boltzmann constant `kb` is a
parameter. -/
noncomputable def bf (delta_e kb temp : ℝ) : ℝ :=
  Real.exp (min 1 (-1 * delta_e / (kb * temp)))

/-- Model of `Simulation.changedisp` (simulate.py lines 293-302):
`p_accept = n_accept / (n_reject + n_accept)`, both counters are reset to 0,
and `dispmag` is multiplied by `exp(2 * dispinc * (p_accept - 0.5))`.  Returns
the new `(n_accept, n_reject, dispmag)`. -/
noncomputable def changedisp (n_accept n_reject : ℕ) (dispmag dispinc : ℝ) :
    ℕ × ℕ × ℝ :=
  let p_accept : ℝ := (n_accept : ℝ) / ((n_reject : ℝ) + (n_accept : ℝ))
  (0, 0, dispmag * Real.exp (2 * dispinc * (p_accept - 0.5)))

/-- Per-atom state: mass, the three kinematic vectors and their previous-value
snapshots (`pcoords`/`pvels`/`paccs`), mirroring the `mmlib.molecule.Atom`
fields used by simulate.py. -/
structure Atom where
  mass : ℝ
  coords : Fin 3 → ℝ
  vels : Fin 3 → ℝ
  accs : Fin 3 → ℝ
  pcoords : Fin 3 → ℝ
  pvels : Fin 3 → ℝ
  paccs : Fin 3 → ℝ

/-- Apply an index-dependent per-atom function to every atom, the index
starting at `k`; the engine loops `for i in range(self.mol.n_atoms)`. -/
def mapIdxFrom (f : ℕ → Atom → Atom) : ℕ → List Atom → List Atom
  | _, [] => []
  | k, a :: rest => f k a :: mapIdxFrom f (k + 1) rest

/-- Model of `Simulation.update_accs` (simulate.py lines 227-238): for every
atom and component, `paccs[j] = accs[j]` and then
`accs[j] = -acc_conv() * g_total[i][j] / mass`, where `g_total` is the
gradient array supplied by the energy model. -/
noncomputable def update_accs (g_total : ℕ → Fin 3 → ℝ) (atoms : List Atom) : List Atom :=
  mapIdxFrom (fun i a =>
    { a with paccs := a.accs, accs := fun j => -acc_conv * g_total i j / a.mass }) 0 atoms

/-- Model of `Simulation.update_vels` (simulate.py lines 240-252): for every
atom and component, `pvels[j] = vels[j]` and then
`vels[j] += accs[j] * tstep`. -/
noncomputable def update_vels (tstep : ℝ) (atoms : List Atom) : List Atom :=
  mapIdxFrom (fun _ a =>
    { a with pvels := a.vels, vels := fun j => a.vels j + a.accs j * tstep }) 0 atoms

/-- Model of `Simulation.update_coords` (simulate.py lines 254-274): with
`dt = vconst * tstep` and `dt2 = aconst * tstep**2`, for every atom and
component `pcoords[j] = coords[j]` and then `coords[j] += vels[j] * dt`
followed by `coords[j] += accs[j] * dt2`. -/
noncomputable def update_coords (tstep vconst aconst : ℝ) (atoms : List Atom) : List Atom :=
  let dt := vconst * tstep
  let dt2 := aconst * tstep ^ 2
  mapIdxFrom (fun _ a =>
    { a with pcoords := a.coords,
             coords := fun j => a.coords j + a.vels j * dt + a.accs j * dt2 }) 0 atoms

/-- Model of `Simulation.disp_coords` (simulate.py lines 282-291): for every
atom and component, `pcoords[j] = coords[j]` and then
`coords[j] += disp_vector[i][j]`. -/
noncomputable def disp_coords (disp_vector : ℕ → Fin 3 → ℝ) (atoms : List Atom) : List Atom :=
  mapIdxFrom (fun i a =>
    { a with pcoords := a.coords, coords := fun j => a.coords j + disp_vector i j }) 0 atoms

/-- Model of `Simulation.zero_vels` (simulate.py lines 276-280): every velocity
component is set to 0.0; no other field is touched — in particular `pvels` is
not snapshotted. -/
noncomputable def zero_vels (atoms : List Atom) : List Atom :=
  mapIdxFrom (fun _ a => { a with vels := fun _ => 0 }) 0 atoms

/-- Model of `Simulation.initialize_vels` (simulate.py lines 114-134): when
`temp > 0`, every velocity component is overwritten by a fresh Gaussian draw
(the drawn value, sigma included, is the oracle `draws i j`), and afterwards
every velocity is rescaled by `sqrt(temp / mol_temp)` where `mol_temp` is the
kinetic temperature reported by the energy model.  `pvels` is never
snapshotted.  When `temp ≤ 0` nothing happens. -/
noncomputable def initialize_vels (temp mol_temp : ℝ) (draws : ℕ → Fin 3 → ℝ)
    (atoms : List Atom) : List Atom :=
  if 0 < temp then
    let atoms1 := mapIdxFrom (fun i a => { a with vels := fun j => draws i j }) 0 atoms
    let vscale := Real.sqrt (temp / mol_temp)
    mapIdxFrom (fun _ a => { a with vels := fun j => a.vels j * vscale }) 0 atoms1
  else atoms

/-- Model of `Simulation.equilibrate_temp` (simulate.py lines 136-149): the
exponential moving average `etemp` is updated with weight `10 * timestep`
from the energy model's reading `mol_temp`, and every velocity component is
multiplied by `1 + (timestep/eqrate) * (sqrt(temp/etemp) - 1)`.  `pvels` is
never snapshotted.  Returns the new `etemp` and the rescaled atoms. -/
noncomputable def equilibrate_temp (timestep eqrate temp etemp mol_temp : ℝ)
    (atoms : List Atom) : ℝ × List Atom :=
  let tscale := timestep / eqrate
  let tweight := 10.0 * timestep
  let etemp1 := (etemp + tweight * mol_temp) / (1.0 + tweight)
  let velscale := 1.0 + tscale * (Real.sqrt (temp / etemp1) - 1.0)
  (etemp1, mapIdxFrom (fun _ a => { a with vels := fun j => a.vels j * velscale }) 0 atoms)

theorem mapIdxFrom_getElem? (f : ℕ → Atom → Atom) (k : ℕ) (atoms : List Atom) (i : ℕ) :
    (mapIdxFrom f k atoms)[i]? = (atoms[i]?).map (f (k + i)) := by
  induction atoms generalizing k i with
  | nil => simp [mapIdxFrom]
  | cons a rest ih =>
    cases i with
    | zero => simp [mapIdxFrom]
    | succ n =>
      have hk : k + (n + 1) = (k + 1) + n := by omega
      simp only [mapIdxFrom, List.getElem?_cons_succ, hk]
      exact ih (k + 1) n

theorem mapIdxFrom_map_proj {β : Type} (atoms : List Atom) (f : ℕ → Atom → Atom)
    (F G : Atom → β) (i : ℕ) (h : ∀ a, F (f i a) = G a) :
    ((mapIdxFrom f 0 atoms)[i]?).map F = (atoms[i]?).map G := by
  rw [mapIdxFrom_getElem?, Nat.zero_add]
  cases atoms[i]? with
  | none => rfl
  | some a => simp [h]

/-- A concrete one-atom configuration (unit mass, velocity 1 in every
component, all other fields 0) used to evaluate the engine operations at a
specific input. -/
noncomputable def atomEx : Atom :=
  { mass := 1, coords := fun _ => 0, vels := fun _ => 1, accs := fun _ => 0,
    pcoords := fun _ => 0, pvels := fun _ => 0, paccs := fun _ => 0 }

/-- C3 (amended).  The four per-particle overwrite operations that the source
pairs with a snapshot do snapshot the previous value immediately before the
overwrite: after `update_accs`, `paccs` holds the entry `accs`; after
`update_vels`, `pvels` holds the entry `vels`; after `update_coords` and
`disp_coords`, `pcoords` holds the entry `coords`.  But the remaining
velocity-overwriting operations do not: `zero_vels` zeroes every velocity
while leaving `pvels` at its prior value (not the entry velocity), and
`initialize_vels` and `equilibrate_temp` likewise overwrite velocities with
`pvels` untouched. -/
theorem snapshot_semantics (atoms : List Atom) (g disp draws : ℕ → Fin 3 → ℝ)
    (tstep vconst aconst temp mol_temp timestep eqrate etemp : ℝ) (i : ℕ) :
    ((update_accs g atoms)[i]?).map Atom.paccs = (atoms[i]?).map Atom.accs
  ∧ ((update_vels tstep atoms)[i]?).map Atom.pvels = (atoms[i]?).map Atom.vels
  ∧ ((update_coords tstep vconst aconst atoms)[i]?).map Atom.pcoords
      = (atoms[i]?).map Atom.coords
  ∧ ((disp_coords disp atoms)[i]?).map Atom.pcoords = (atoms[i]?).map Atom.coords
  ∧ ((zero_vels atoms)[i]?).map Atom.vels = (atoms[i]?).map (fun _ => (fun _ => (0 : ℝ)))
  ∧ ((zero_vels atoms)[i]?).map Atom.pvels = (atoms[i]?).map Atom.pvels
  ∧ ((initialize_vels temp mol_temp draws atoms)[i]?).map Atom.pvels
      = (atoms[i]?).map Atom.pvels
  ∧ (((equilibrate_temp timestep eqrate temp etemp mol_temp atoms).2)[i]?).map Atom.pvels
      = (atoms[i]?).map Atom.pvels := by
  refine ⟨?_, ?_, ?_, ?_, ?_, ?_, ?_, ?_⟩
  · exact mapIdxFrom_map_proj atoms _ _ _ i (fun a => rfl)
  · exact mapIdxFrom_map_proj atoms _ _ _ i (fun a => rfl)
  · simp only [update_coords]
    exact mapIdxFrom_map_proj atoms _ _ _ i (fun a => rfl)
  · exact mapIdxFrom_map_proj atoms _ _ _ i (fun a => rfl)
  · exact mapIdxFrom_map_proj atoms _ _ _ i (fun a => rfl)
  · exact mapIdxFrom_map_proj atoms _ _ _ i (fun a => rfl)
  · by_cases ht : 0 < temp
    · simp only [initialize_vels, if_pos ht]
      rw [mapIdxFrom_getElem?, mapIdxFrom_getElem?]
      cases atoms[i]? with
      | none => rfl
      | some a => rfl
    · simp [initialize_vels, if_neg ht]
  · simp only [equilibrate_temp]
    exact mapIdxFrom_map_proj atoms _ _ _ i (fun a => rfl)

/-- C3 counterexample.  On a one-atom system whose entry velocity is 1 in
every component (and whose `pvels` is 0), `zero_vels` leaves `pvels` at 0,
which is not the value `vels` had on entry — refuting the claim that every
engine operation overwriting a velocity snapshots it into `pvels` first. -/
theorem zero_vels_no_snapshot :
    ((zero_vels [atomEx])[0]?).map Atom.pvels ≠ (([atomEx] : List Atom)[0]?).map Atom.vels := by
  intro h
  simp only [zero_vels, mapIdxFrom, List.getElem?_cons_zero, Option.map_some'] at h
  have h' := congrFun (Option.some.inj h) 0
  simp only [atomEx] at h'
  exact zero_ne_one h'

/-- C7 (amended).  `update_accs` snapshots the previous acceleration and then
sets every acceleration component to `-acc_conv() * g_total[i][j] / mass`,
where `g_total` is the gradient array supplied by the energy model; writing
`force` for the negated gradient, this equals `+acc_conv * force / mass`
(not `-acc_conv * force / mass` as the claim words it); `acc_conv` is the
fixed constant 418.4. -/
theorem update_accs_formula (g : ℕ → Fin 3 → ℝ) (atoms : List Atom) (i : ℕ) :
    ((update_accs g atoms)[i]?).map Atom.accs
      = (atoms[i]?).map (fun a => fun j => -acc_conv * g i j / a.mass)
  ∧ ((update_accs g atoms)[i]?).map Atom.paccs = (atoms[i]?).map Atom.accs
  ∧ (∀ x m : ℝ, -acc_conv * x / m = acc_conv * (-x) / m)
  ∧ acc_conv = 418.4 := by
  refine ⟨?_, ?_, ?_, ?_⟩
  · refine mapIdxFrom_map_proj atoms _ _ _ i (fun a => ?_)
    simp
  · exact mapIdxFrom_map_proj atoms _ _ _ i (fun a => rfl)
  · intro x m
    ring
  · norm_num [acc_conv]

/-- C1 (amended).  The Metropolis factor of a trial is
`bf = exp(min(1, -ΔE / (kb * temp)))`; for every `ΔE ≤ 0` (with
`kb * temp > 0`) this gives `bf ≥ 1` — so the trial is always accepted, the
uniform draw being below 1 — with `bf = 1` exactly at `ΔE = 0` (for `ΔE < 0`
the factor exceeds 1); and `bf → 0` as `ΔE → +∞`. -/
theorem metropolis_bf_bounds (kb temp : ℝ) (h : 0 < kb * temp) :
    (∀ delta_e : ℝ, delta_e ≤ 0 →
        1 ≤ bf delta_e kb temp ∧ (bf delta_e kb temp = 1 ↔ delta_e = 0))
  ∧ Filter.Tendsto (fun delta_e => bf delta_e kb temp) Filter.atTop (nhds 0) := by
  constructor
  · intro d hd
    have hx : 0 ≤ -1 * d / (kb * temp) := div_nonneg (by linarith) h.le
    have hmin : 0 ≤ min 1 (-1 * d / (kb * temp)) := le_min zero_le_one hx
    constructor
    · unfold bf
      calc (1 : ℝ) = Real.exp 0 := Real.exp_zero.symm
      _ ≤ Real.exp (min 1 (-1 * d / (kb * temp))) := Real.exp_le_exp.mpr hmin
    · unfold bf
      rw [Real.exp_eq_one_iff]
      constructor
      · intro h0
        rcases min_eq_iff.mp h0 with h1 | h1
        · exact absurd h1.1 one_ne_zero
        · have hden : kb * temp ≠ 0 := ne_of_gt h
          have : -1 * d = 0 := by
            rcases div_eq_zero_iff.mp h1.1 with h2 | h2
            · exact h2
            · exact absurd h2 hden
          linarith
      · intro h0
        rw [h0]
        norm_num
  · have hc : -(kb * temp) < 0 := by linarith
    have h1 : Filter.Tendsto (fun d : ℝ => d / -(kb * temp)) Filter.atTop Filter.atBot :=
      Filter.tendsto_id.atTop_div_const_of_neg hc
    have h2 := Real.tendsto_exp_atBot.comp h1
    refine Filter.Tendsto.congr' ?_ h2
    filter_upwards [Filter.eventually_ge_atTop 0] with d hd
    have h0 : -1 * d / (kb * temp) ≤ 0 :=
      div_nonpos_iff.mpr (Or.inr ⟨by linarith, h.le⟩)
    show Real.exp (d / -(kb * temp)) = bf d kb temp
    unfold bf
    rw [min_eq_right (le_trans h0 zero_le_one)]
    congr 1
    ring

theorem metropolis_bf_bounds_witness :
    0 < (1 : ℝ) * 1 ∧ (-1 : ℝ) ≤ 0 ∧ 1 ≤ bf (-1) 1 1 :=
  ⟨by norm_num, by norm_num,
    ((metropolis_bf_bounds 1 1 (by norm_num)).1 (-1) (by norm_num)).1⟩

/-- C1 counterexample.  At `ΔE = -1` with `kb = temp = 1` (so `ΔE ≤ 0` and
`kb * temp > 0`), the code's factor is `bf = exp(min(1, 1)) = e ≠ 1`,
refuting the claim that `bf` evaluates to 1 for every trial with `ΔE ≤ 0`. -/
theorem metropolis_bf_not_one : bf (-1) 1 1 ≠ 1 := by
  have h1 : bf (-1) 1 1 = Real.exp 1 := by
    unfold bf
    norm_num
  rw [h1, Ne, Real.exp_eq_one_iff]
  norm_num

/-- C5.  One `changedisp` call with counters `a = n_accept`, `b = n_reject`
(`a + b > 0`) computes `p_accept = a / (b + a)`, resets both counters to 0,
and multiplies `dispmag` by `exp(2 * dispinc * (p_accept - 0.5))`; with
`dispinc > 0` and `dispmag > 0`, the new magnitude strictly increases when
`p_accept > 1/2`, strictly decreases when `p_accept < 1/2`, and is unchanged
when `p_accept = 1/2`. -/
theorem changedisp_spec (a b : ℕ) (dispmag dispinc : ℝ) (ha : 0 < a + b)
    (hm : 0 < dispmag) (hi : 0 < dispinc) :
    (changedisp a b dispmag dispinc).1 = 0
  ∧ (changedisp a b dispmag dispinc).2.1 = 0
  ∧ (changedisp a b dispmag dispinc).2.2
      = dispmag * Real.exp (2 * dispinc * ((a : ℝ) / ((b : ℝ) + (a : ℝ)) - 0.5))
  ∧ ((1 : ℝ) / 2 < (a : ℝ) / ((b : ℝ) + (a : ℝ)) →
      dispmag < (changedisp a b dispmag dispinc).2.2)
  ∧ ((a : ℝ) / ((b : ℝ) + (a : ℝ)) < 1 / 2 →
      (changedisp a b dispmag dispinc).2.2 < dispmag)
  ∧ ((a : ℝ) / ((b : ℝ) + (a : ℝ)) = 1 / 2 →
      (changedisp a b dispmag dispinc).2.2 = dispmag) := by
  have hval : (changedisp a b dispmag dispinc).2.2
      = dispmag * Real.exp (2 * dispinc * ((a : ℝ) / ((b : ℝ) + (a : ℝ)) - 0.5)) := rfl
  refine ⟨rfl, rfl, hval, ?_, ?_, ?_⟩
  · intro hp
    rw [hval]
    have hx : 0 < 2 * dispinc * ((a : ℝ) / ((b : ℝ) + (a : ℝ)) - 0.5) := by
      apply mul_pos (by linarith)
      norm_num
      linarith
    exact (lt_mul_iff_one_lt_right hm).mpr (Real.one_lt_exp_iff.mpr hx)
  · intro hp
    rw [hval]
    have hx : 2 * dispinc * ((a : ℝ) / ((b : ℝ) + (a : ℝ)) - 0.5) < 0 := by
      apply mul_neg_of_pos_of_neg (by linarith)
      norm_num
      linarith
    exact (mul_lt_iff_lt_one_right hm).mpr (Real.exp_lt_one_iff.mpr hx)
  · intro hp
    rw [hval, hp]
    norm_num

theorem changedisp_spec_witness :
    0 < 80 + 20 ∧ (1 : ℝ) / 2 < ((80 : ℕ) : ℝ) / (((20 : ℕ) : ℝ) + ((80 : ℕ) : ℝ))
  ∧ (1 : ℝ) < (changedisp 80 20 1 1).2.2 :=
  ⟨by norm_num, by norm_num,
    (changedisp_spec 80 20 1 1 (by norm_num) (by norm_num) (by norm_num)).2.2.2.1
      (by norm_num)⟩

theorem mc_trial_conf (ec gc dispconf : ℕ) (sdb accept : Bool) (s : MCSt) :
    (mc_trial ec gc dispconf sdb accept s).conf = if accept then s.conf + 1 else s.conf := by
  cases accept <;>
    simp [mc_trial, check_disp, apply_ite MCSt.conf]

/-- C4.  In the MC trial loop, the accepted-configuration counter never
exceeds `totconfs` at any reachable state; when the loop exits with the guard
false it holds `conf = totconfs` exactly; a rejected trial leaves `conf`
unchanged while an accepted trial increments it by one; and as soon as
`conf = totconfs` the loop terminates immediately. -/
theorem mc_conf_invariants (T dispconf ec gc : ℕ) (outcome : ℕ → Option Bool)
    (sd : ℕ → Bool) :
    (∀ fuel s, s.conf ≤ T →
        ((mc_loop T dispconf ec gc outcome sd fuel s).1).conf ≤ T)
  ∧ (∀ fuel s, s.conf ≤ T →
      (mc_loop T dispconf ec gc outcome sd fuel s).2 = Status.finished →
        ((mc_loop T dispconf ec gc outcome sd fuel s).1).conf = T)
  ∧ (∀ sdb s, (mc_trial ec gc dispconf sdb false s).conf = s.conf)
  ∧ (∀ sdb s, (mc_trial ec gc dispconf sdb true s).conf = s.conf + 1)
  ∧ (∀ fuel s, s.conf = T →
        mc_loop T dispconf ec gc outcome sd fuel s = (s, Status.finished)) := by
  have hbound : ∀ fuel s, s.conf ≤ T →
      ((mc_loop T dispconf ec gc outcome sd fuel s).1).conf ≤ T := by
    intro fuel
    induction fuel with
    | zero =>
      intro s hs
      simp only [mc_loop]
      split <;> exact hs
    | succ n ih =>
      intro s hs
      by_cases hlt : s.conf < T
      · cases houtcome : outcome s.trial with
        | none => simp only [mc_loop, if_pos hlt, houtcome]; exact hs
        | some accept =>
          simp only [mc_loop, if_pos hlt, houtcome]
          apply ih
          rw [mc_trial_conf]
          cases accept <;> simp <;> omega
      · simp only [mc_loop, if_neg hlt]
        exact hs
  refine ⟨hbound, ?_, ?_, ?_, ?_⟩
  · intro fuel
    induction fuel with
    | zero =>
      intro s hs hfin
      simp only [mc_loop] at hfin ⊢
      by_cases hlt : s.conf < T
      · rw [if_pos hlt] at hfin
        exact absurd hfin (by simp)
      · rw [if_neg hlt]
        show s.conf = T
        omega
    | succ n ih =>
      intro s hs hfin
      by_cases hlt : s.conf < T
      · cases houtcome : outcome s.trial with
        | none =>
          simp only [mc_loop, if_pos hlt, houtcome] at hfin
          exact absurd hfin (by simp)
        | some accept =>
          simp only [mc_loop, if_pos hlt, houtcome] at hfin ⊢
          apply ih _ _ hfin
          rw [mc_trial_conf]
          cases accept <;> simp <;> omega
      · simp only [mc_loop, if_neg hlt]
        show s.conf = T
        omega
  · intro sdb s
    rw [mc_trial_conf]
    simp
  · intro sdb s
    rw [mc_trial_conf]
    simp
  · intro fuel s hs
    have hlt : ¬ s.conf < T := by omega
    cases fuel <;> simp [mc_loop, hlt]

theorem mc_conf_invariants_witness :
    (mc_start 100 100 false).conf ≤ 2
  ∧ (mc_loop 2 100 100 100 (fun t => if t % 2 = 1 then some true else some false)
      (fun _ => false) 5 (mc_start 100 100 false)).2 = Status.finished
  ∧ ((mc_loop 2 100 100 100 (fun t => if t % 2 = 1 then some true else some false)
      (fun _ => false) 5 (mc_start 100 100 false)).1).conf = 2 :=
  ⟨by decide, by decide,
    (mc_conf_invariants 2 100 100 100 (fun t => if t % 2 = 1 then some true else some false)
      (fun _ => false)).2.1 5 (mc_start 100 100 false) (by decide) (by decide)⟩

theorem md_steploop_count (tottime timestep et gt : ℚ) (sd : ℕ → Bool) :
    ∀ fuel s,
      ((md_steploop tottime timestep et gt sd (fun _ => false) fuel s).1).time
          = (md_count tottime timestep fuel s.time).1
      ∧ ((md_steploop tottime timestep et gt sd (fun _ => false) fuel s).1).steps
          = s.steps + (md_count tottime timestep fuel s.time).2
      ∧ ((md_steploop tottime timestep et gt sd (fun _ => false) fuel s).2 = Status.finished
          ↔ ¬ (md_count tottime timestep fuel s.time).1 < tottime) := by
  intro fuel
  induction fuel with
  | zero =>
    intro s
    by_cases h : s.time < tottime <;>
      simp [md_steploop, md_count, h]
  | succ n ih =>
    intro s
    by_cases h : s.time < tottime
    · have hrec := ih
        { time := s.time + timestep,
          etime := (check_print_md et gt (sd s.steps) timestep false s.etime s.gtime).1,
          gtime := (check_print_md et gt (sd s.steps) timestep false s.etime s.gtime).2.1,
          steps := s.steps + 1,
          events := s.events
            ++ (check_print_md et gt (sd s.steps) timestep false s.etime s.gtime).2.2 }
      simp only [md_steploop, md_count, if_pos h] at hrec ⊢
      refine ⟨?_, ?_, ?_⟩
      · simpa using hrec.1
      · have := hrec.2.1
        simp at this ⊢
        omega
      · simpa using hrec.2.2
    · simp [md_steploop, md_count, h]

theorem run_md_parts (tottime timestep energytime geomtime : ℚ) (sd fail : ℕ → Bool)
    (sd0 sdF : Bool) (fuel : ℕ) :
    ((run_md tottime timestep energytime geomtime sd fail sd0 sdF fuel).1).steps
        = ((md_steploop tottime timestep energytime geomtime sd fail fuel
            (md_start energytime geomtime sd0)).1).steps
  ∧ ((md_steploop tottime timestep energytime geomtime sd fail fuel
        (md_start energytime geomtime sd0)).2 = Status.finished →
      (run_md tottime timestep energytime geomtime sd fail sd0 sdF fuel).2
        = Status.finished) := by
  constructor
  · simp only [run_md]
    split
    · rfl
    · rfl
  · intro h
    simp only [run_md, if_pos h]

/-- C8.  With `total_time = 1.0` and `time_step = 0.1` (and `self.time`
starting at `10**-10`), the MD stepping loop — whose guard is
`self.time < self.tottime` and which increments `self.time` by `timestep`
once per iteration — executes its body exactly 10 times, the run finishing
normally, and 10 equals `ceil(total_time / time_step)`. -/
theorem md_iteration_count (et gt : ℚ) (sd : ℕ → Bool) (sd0 sdF : Bool) :
    ((run_md 1 (1 / 10) et gt sd (fun _ => false) sd0 sdF 12).1).steps = 10
  ∧ (run_md 1 (1 / 10) et gt sd (fun _ => false) sd0 sdF 12).2 = Status.finished
  ∧ (10 : ℕ) = ⌈(1 : ℚ) / (1 / 10)⌉₊ := by
  have hcount : (md_count 1 (1 / 10) 12 ((1 : ℚ) / 10 ^ 10)).2 = 10 := by
    norm_num [md_count]
  have hdone : ¬ (md_count 1 (1 / 10) 12 ((1 : ℚ) / 10 ^ 10)).1 < 1 := by
    norm_num [md_count]
  have hceil : (10 : ℕ) = ⌈(1 : ℚ) / (1 / 10)⌉₊ := by norm_num
  have ht : (md_start et gt sd0).time = (1 : ℚ) / 10 ^ 10 := rfl
  have hstep0 : (md_start et gt sd0).steps = 0 := rfl
  have hr0 := md_steploop_count 1 (1 / 10) et gt sd 12 (md_start et gt sd0)
  rw [ht, hstep0] at hr0
  obtain ⟨hs, hf⟩ := run_md_parts 1 (1 / 10) et gt sd (fun _ => false) sd0 sdF 12
  have hfin : (md_steploop 1 (1 / 10) et gt sd (fun _ => false) 12
      (md_start et gt sd0)).2 = Status.finished := hr0.2.2.mpr hdone
  refine ⟨?_, hf hfin, hceil⟩
  rw [hs, hr0.2.1, hcount]

/-- The events emitted by the one final `check_print_mc(0)` call of `run_mc`
after the trial loop exits, given the scheduling counters at loop exit:
`print_all` is left at its default `False`. -/
def mc_final_events (energyconf geomconf : ℕ) (statusDueF : Bool) (s : MCSt) : List Ev :=
  (check_print_mc energyconf geomconf statusDueF 0 false s.econf s.gconf).2.2

/-- The events emitted by the one final `check_print_md(self.timestep)` call
of `run_md` after the stepping loop exits: `print_all` is left at its default
`False`. -/
def md_final_events (energytime geomtime timestep : ℚ) (statusDueF : Bool) (s : MDSt) :
    List Ev :=
  (check_print_md energytime geomtime statusDueF timestep false s.etime s.gtime).2.2

theorem check_print_mc_mem (ec gc : ℕ) (sdb : Bool) (n e g : ℕ) :
    (Ev.energy ∈ (check_print_mc ec gc sdb n false e g).2.2 ↔ ec ≤ e)
  ∧ (Ev.geom ∈ (check_print_mc ec gc sdb n false e g).2.2 ↔ gc ≤ g) := by
  by_cases h1 : ec ≤ e <;> by_cases h2 : gc ≤ g <;> by_cases h3 : sdb = true <;>
    simp [check_print_mc, h1, h2, h3]

theorem check_print_md_mem (et gt : ℚ) (sdb : Bool) (ts e g : ℚ) :
    (Ev.energy ∈ (check_print_md et gt sdb ts false e g).2.2 ↔ et ≤ e)
  ∧ (Ev.geom ∈ (check_print_md et gt sdb ts false e g).2.2 ↔ gt ≤ g) := by
  by_cases h1 : et ≤ e <;> by_cases h2 : gt ≤ g <;> by_cases h3 : sdb = true <;>
    simp [check_print_md, h1, h2, h3]

theorem check_print_mc_no_closed (ec gc : ℕ) (sdb pall : Bool) (n e g : ℕ) :
    Ev.closed ∉ (check_print_mc ec gc sdb n pall e g).2.2 := by
  by_cases h1 : pall = true ∨ ec ≤ e <;> by_cases h2 : pall = true ∨ gc ≤ g <;>
    by_cases h3 : pall = true ∨ sdb = true <;> simp [check_print_mc, h1, h2, h3]

theorem check_print_md_no_closed (et gt : ℚ) (sdb pall : Bool) (ts e g : ℚ) :
    Ev.closed ∉ (check_print_md et gt sdb ts pall e g).2.2 := by
  by_cases h1 : pall = true ∨ et ≤ e <;> by_cases h2 : pall = true ∨ gt ≤ g <;>
    by_cases h3 : pall = true ∨ sdb = true <;> simp [check_print_md, h1, h2, h3]

theorem mc_trial_events (ec gc c : ℕ) (sdb accept : Bool) (s : MCSt) :
    (mc_trial ec gc c sdb accept s).events
      = if accept then s.events ++ (check_print_mc ec gc sdb 1 false s.econf s.gconf).2.2
        else s.events := by
  cases accept <;> simp [mc_trial, check_disp, apply_ite MCSt.events]

theorem mc_loop_no_closed (T c ec gc : ℕ) (outcome : ℕ → Option Bool) (sd : ℕ → Bool) :
    ∀ fuel s, Ev.closed ∉ s.events →
      Ev.closed ∉ ((mc_loop T c ec gc outcome sd fuel s).1).events := by
  intro fuel
  induction fuel with
  | zero =>
    intro s h
    simp only [mc_loop]
    split <;> exact h
  | succ n ih =>
    intro s h
    by_cases hlt : s.conf < T
    · cases ho : outcome s.trial with
      | none => simp only [mc_loop, if_pos hlt, ho]; exact h
      | some b =>
        simp only [mc_loop, if_pos hlt, ho]
        apply ih
        rw [mc_trial_events]
        cases b
        · simpa using h
        · simp only [if_pos rfl]
          intro hmem
          rcases List.mem_append.mp hmem with hh | hh
          · exact h hh
          · exact check_print_mc_no_closed ec gc (sd s.trial) false 1 s.econf s.gconf hh
    · simp only [mc_loop, if_neg hlt]
      exact h

theorem md_steploop_no_closed (tt ts et gt : ℚ) (sd fail : ℕ → Bool) :
    ∀ fuel s, Ev.closed ∉ s.events →
      Ev.closed ∉ ((md_steploop tt ts et gt sd fail fuel s).1).events := by
  intro fuel
  induction fuel with
  | zero =>
    intro s h
    simp only [md_steploop]
    split <;> exact h
  | succ n ih =>
    intro s h
    by_cases hlt : s.time < tt
    · by_cases hfail : fail s.steps
      · simp only [md_steploop, if_pos hlt, if_pos hfail]
        exact h
      · simp only [md_steploop, if_pos hlt, if_neg hfail]
        apply ih
        simp only [List.mem_append]
        push_neg
        exact ⟨h, check_print_md_no_closed et gt (sd s.steps) false ts s.etime s.gtime⟩
    · simp only [md_steploop, if_neg hlt]
      exact h

theorem run_mc_parts (T c ec gc : ℕ) (outcome : ℕ → Option Bool) (sd : ℕ → Bool)
    (sd0 sdF : Bool) (fuel : ℕ) :
    (run_mc T c ec gc outcome sd sd0 sdF fuel).2
        = (if (mc_loop T c ec gc outcome sd fuel (mc_start ec gc sd0)).2 = Status.finished
           then Status.finished
           else (mc_loop T c ec gc outcome sd fuel (mc_start ec gc sd0)).2)
  ∧ ((run_mc T c ec gc outcome sd sd0 sdF fuel).1).events
        = (if (mc_loop T c ec gc outcome sd fuel (mc_start ec gc sd0)).2 = Status.finished
           then ((mc_loop T c ec gc outcome sd fuel (mc_start ec gc sd0)).1).events
             ++ mc_final_events ec gc sdF
                  (mc_loop T c ec gc outcome sd fuel (mc_start ec gc sd0)).1
             ++ [Ev.status, Ev.flushed, Ev.closed]
           else ((mc_loop T c ec gc outcome sd fuel (mc_start ec gc sd0)).1).events) := by
  by_cases h : (mc_loop T c ec gc outcome sd fuel (mc_start ec gc sd0)).2 = Status.finished
  · constructor <;> simp only [run_mc, mc_final_events, if_pos h]
  · constructor <;> simp only [run_mc, mc_final_events, if_neg h]

theorem run_md_more (tt ts et gt : ℚ) (sd fail : ℕ → Bool) (sd0 sdF : Bool) (fuel : ℕ) :
    (run_md tt ts et gt sd fail sd0 sdF fuel).2
        = (if (md_steploop tt ts et gt sd fail fuel (md_start et gt sd0)).2 = Status.finished
           then Status.finished
           else (md_steploop tt ts et gt sd fail fuel (md_start et gt sd0)).2)
  ∧ ((run_md tt ts et gt sd fail sd0 sdF fuel).1).events
        = (if (md_steploop tt ts et gt sd fail fuel (md_start et gt sd0)).2 = Status.finished
           then ((md_steploop tt ts et gt sd fail fuel (md_start et gt sd0)).1).events
             ++ md_final_events et gt ts sdF
                  (md_steploop tt ts et gt sd fail fuel (md_start et gt sd0)).1
             ++ [Ev.status, Ev.flushed, Ev.closed]
           else ((md_steploop tt ts et gt sd fail fuel (md_start et gt sd0)).1).events) := by
  by_cases h : (md_steploop tt ts et gt sd fail fuel (md_start et gt sd0)).2 = Status.finished
  · constructor <;> simp only [run_md, md_final_events, if_pos h]
  · constructor <;> simp only [run_md, md_final_events, if_neg h]

/-- C2 (amended).  When the MD or MC loop exits normally, the run performs one
final output check with the forced flag off — the final `check_print_*` call
emits an energy (resp. geometry) record if and only if the scheduled-interval
predicate holds at loop exit, not unconditionally — followed by the
unconditional close path: a status print, a flush of both files, and closing
of the files. -/
theorem final_output_check_scheduled (T c ec gc : ℕ) (outcome : ℕ → Option Bool)
    (sd : ℕ → Bool) (sd0 sdF : Bool) (fuel : ℕ) (tt ts et gt : ℚ)
    (sd2 fail2 : ℕ → Bool) (sd0b sdFb : Bool) (fuel2 : ℕ) :
    ((mc_loop T c ec gc outcome sd fuel (mc_start ec gc sd0)).2 = Status.finished →
        ((run_mc T c ec gc outcome sd sd0 sdF fuel).1).events
          = ((mc_loop T c ec gc outcome sd fuel (mc_start ec gc sd0)).1).events
            ++ mc_final_events ec gc sdF
                 (mc_loop T c ec gc outcome sd fuel (mc_start ec gc sd0)).1
            ++ [Ev.status, Ev.flushed, Ev.closed]
      ∧ (Ev.energy ∈ mc_final_events ec gc sdF
            (mc_loop T c ec gc outcome sd fuel (mc_start ec gc sd0)).1
          ↔ ec ≤ ((mc_loop T c ec gc outcome sd fuel (mc_start ec gc sd0)).1).econf)
      ∧ (Ev.geom ∈ mc_final_events ec gc sdF
            (mc_loop T c ec gc outcome sd fuel (mc_start ec gc sd0)).1
          ↔ gc ≤ ((mc_loop T c ec gc outcome sd fuel (mc_start ec gc sd0)).1).gconf))
  ∧ ((md_steploop tt ts et gt sd2 fail2 fuel2 (md_start et gt sd0b)).2 = Status.finished →
        ((run_md tt ts et gt sd2 fail2 sd0b sdFb fuel2).1).events
          = ((md_steploop tt ts et gt sd2 fail2 fuel2 (md_start et gt sd0b)).1).events
            ++ md_final_events et gt ts sdFb
                 (md_steploop tt ts et gt sd2 fail2 fuel2 (md_start et gt sd0b)).1
            ++ [Ev.status, Ev.flushed, Ev.closed]
      ∧ (Ev.energy ∈ md_final_events et gt ts sdFb
            (md_steploop tt ts et gt sd2 fail2 fuel2 (md_start et gt sd0b)).1
          ↔ et ≤ ((md_steploop tt ts et gt sd2 fail2 fuel2 (md_start et gt sd0b)).1).etime)
      ∧ (Ev.geom ∈ md_final_events et gt ts sdFb
            (md_steploop tt ts et gt sd2 fail2 fuel2 (md_start et gt sd0b)).1
          ↔ gt ≤ ((md_steploop tt ts et gt sd2 fail2 fuel2 (md_start et gt sd0b)).1).gtime)) := by
  constructor
  · intro hp
    refine ⟨?_, ?_, ?_⟩
    · rw [(run_mc_parts T c ec gc outcome sd sd0 sdF fuel).2, if_pos hp]
    · exact (check_print_mc_mem ec gc sdF 0 _ _).1
    · exact (check_print_mc_mem ec gc sdF 0 _ _).2
  · intro hp
    refine ⟨?_, ?_, ?_⟩
    · rw [(run_md_more tt ts et gt sd2 fail2 sd0b sdFb fuel2).2, if_pos hp]
    · exact (check_print_md_mem et gt sdFb ts _ _).1
    · exact (check_print_md_mem et gt sdFb ts _ _).2

theorem final_output_check_scheduled_witness :
    (mc_loop 1 100 100 100 (fun _ => some true) (fun _ => false) 5
        (mc_start 100 100 false)).2 = Status.finished
  ∧ (Ev.energy ∈ mc_final_events 100 100 false
        (mc_loop 1 100 100 100 (fun _ => some true) (fun _ => false) 5
          (mc_start 100 100 false)).1
      ↔ 100 ≤ ((mc_loop 1 100 100 100 (fun _ => some true) (fun _ => false) 5
          (mc_start 100 100 false)).1).econf) :=
  ⟨by decide,
    ((final_output_check_scheduled 1 100 100 100 (fun _ => some true) (fun _ => false)
        false false 5 1 (1 / 10) (1 / 100) (1 / 100) (fun _ => false) (fun _ => false)
        false false 12).1 (by decide)).2.1⟩

/-- C2 counterexample.  A concrete MC run (`totconfs = 1`, printing intervals
100, one accepted trial) finishes normally, yet its full output trace is
`[energy, geom, status, flushed, status, flushed, closed]`: the only energy
and geometry records are the forced initial ones — the final check after the
loop wrote neither an energy row nor a geometry snapshot, so the final flush
is not forced and the terminal state's records are not written. -/
theorem final_output_not_forced :
    (run_mc 1 100 100 100 (fun _ => some true) (fun _ => false) false false 5).2
        = Status.finished
  ∧ ((run_mc 1 100 100 100 (fun _ => some true) (fun _ => false) false false 5).1).events
        = [Ev.energy, Ev.geom, Ev.status, Ev.flushed, Ev.status, Ev.flushed, Ev.closed] := by
  constructor <;> decide

/-- C9 (amended).  For both run kinds the output files are flushed and closed
at `Finished` only on normal completion of the loop: when the run finishes
normally its event trace ends with the close of the files, but when a failure
propagates out of the step/trial loop (the source has no try/finally around
the loop) the run ends without any flush or close — the last flush is
whatever an earlier status print performed. -/
theorem output_close_on_completion_only (T c ec gc : ℕ) (outcome : ℕ → Option Bool)
    (sd : ℕ → Bool) (sd0 sdF : Bool) (fuel : ℕ) (tt ts et gt : ℚ)
    (sd2 fail2 : ℕ → Bool) (sd0b sdFb : Bool) (fuel2 : ℕ) :
    ((run_mc T c ec gc outcome sd sd0 sdF fuel).2 = Status.finished →
        ∃ pre, ((run_mc T c ec gc outcome sd sd0 sdF fuel).1).events = pre ++ [Ev.closed])
  ∧ ((run_mc T c ec gc outcome sd sd0 sdF fuel).2 = Status.failed →
        Ev.closed ∉ ((run_mc T c ec gc outcome sd sd0 sdF fuel).1).events)
  ∧ ((run_md tt ts et gt sd2 fail2 sd0b sdFb fuel2).2 = Status.finished →
        ∃ pre, ((run_md tt ts et gt sd2 fail2 sd0b sdFb fuel2).1).events
          = pre ++ [Ev.closed])
  ∧ ((run_md tt ts et gt sd2 fail2 sd0b sdFb fuel2).2 = Status.failed →
        Ev.closed ∉ ((run_md tt ts et gt sd2 fail2 sd0b sdFb fuel2).1).events) := by
  have hmcstart : Ev.closed ∉ (mc_start ec gc sd0).events :=
    check_print_mc_no_closed ec gc sd0 true 0 0 0
  have hmdstart : Ev.closed ∉ (md_start et gt sd0b).events :=
    check_print_md_no_closed et gt sd0b true 0 _ _
  obtain ⟨hmc2, hmc1⟩ := run_mc_parts T c ec gc outcome sd sd0 sdF fuel
  obtain ⟨hmd2, hmd1⟩ := run_md_more tt ts et gt sd2 fail2 sd0b sdFb fuel2
  refine ⟨?_, ?_, ?_, ?_⟩
  · intro hfin
    by_cases hp : (mc_loop T c ec gc outcome sd fuel (mc_start ec gc sd0)).2
        = Status.finished
    · rw [hmc1, if_pos hp]
      refine ⟨((mc_loop T c ec gc outcome sd fuel (mc_start ec gc sd0)).1).events
        ++ mc_final_events ec gc sdF
             (mc_loop T c ec gc outcome sd fuel (mc_start ec gc sd0)).1
        ++ [Ev.status, Ev.flushed], ?_⟩
      simp
    · rw [hmc2, if_neg hp] at hfin
      exact absurd hfin hp
  · intro hfail
    by_cases hp : (mc_loop T c ec gc outcome sd fuel (mc_start ec gc sd0)).2
        = Status.finished
    · rw [hmc2, if_pos hp] at hfail
      exact absurd hfail (by simp)
    · rw [hmc1, if_neg hp]
      exact mc_loop_no_closed T c ec gc outcome sd fuel (mc_start ec gc sd0) hmcstart
  · intro hfin
    by_cases hp : (md_steploop tt ts et gt sd2 fail2 fuel2 (md_start et gt sd0b)).2
        = Status.finished
    · rw [hmd1, if_pos hp]
      refine ⟨((md_steploop tt ts et gt sd2 fail2 fuel2 (md_start et gt sd0b)).1).events
        ++ md_final_events et gt ts sdFb
             (md_steploop tt ts et gt sd2 fail2 fuel2 (md_start et gt sd0b)).1
        ++ [Ev.status, Ev.flushed], ?_⟩
      simp
    · rw [hmd2, if_neg hp] at hfin
      exact absurd hfin hp
  · intro hfail
    by_cases hp : (md_steploop tt ts et gt sd2 fail2 fuel2 (md_start et gt sd0b)).2
        = Status.finished
    · rw [hmd2, if_pos hp] at hfail
      exact absurd hfail (by simp)
    · rw [hmd1, if_neg hp]
      exact md_steploop_no_closed tt ts et gt sd2 fail2 fuel2 (md_start et gt sd0b) hmdstart

theorem output_close_on_completion_only_witness :
    (run_mc 1 100 100 100 (fun _ => none) (fun _ => false) false false 4).2 = Status.failed
  ∧ Ev.closed ∉
      ((run_mc 1 100 100 100 (fun _ => none) (fun _ => false) false false 4).1).events :=
  ⟨by decide,
    (output_close_on_completion_only 1 100 100 100 (fun _ => none) (fun _ => false)
        false false 4 1 (1 / 10) (1 / 100) (1 / 100) (fun _ => false) (fun _ => false)
        false false 12).2.1 (by decide)⟩

/-- C9 counterexample.  A concrete MC run in which the energy model raises on
the very first trial: the exception propagates (`Status.failed`) and the
event trace contains no close of the output files — so the handles are not
flushed/closed on this failure, refuting the claim that they are closed on
any failure propagating out of the loop. -/
theorem failure_skips_close :
    (run_mc 1 100 100 100 (fun _ => none) (fun _ => false) false false 3).2 = Status.failed
  ∧ Ev.closed ∉
      ((run_mc 1 100 100 100 (fun _ => none) (fun _ => false) false false 3).1).events := by
  constructor <;> decide

theorem mod_pred_succ_eq (c n : ℕ) (hc : 1 ≤ c) (hn : 1 ≤ n) :
    ((n - 1) % c + 1 = c ↔ c ∣ n) := by
  constructor
  · intro h
    have hq := Nat.div_add_mod (n - 1) c
    refine ⟨(n - 1) / c + 1, ?_⟩
    have hmul : c * ((n - 1) / c + 1) = c * ((n - 1) / c) + c := by ring
    omega
  · rintro ⟨k, hk⟩
    have h2 : n - 1 = c * (k - 1) + (c - 1) := by
      cases k with
      | zero => omega
      | succ m =>
        simp only [Nat.succ_sub_one]
        rw [Nat.mul_succ] at hk
        omega
    rw [h2, Nat.mul_add_mod, Nat.mod_eq_of_lt (by omega : c - 1 < c)]
    omega

theorem dstep_iterate (c : ℕ) (hc : 1 ≤ c) :
    ∀ n, (dstep c)^[n] (0, 1, ([] : List ℕ)) = (dAfter c n, n + 1, fires c n) := by
  intro n
  induction n with
  | zero => simp [dAfter, fires]
  | succ n ih =>
    rw [Function.iterate_succ_apply', ih]
    have hmodlt : (n - 1) % c < c := Nat.mod_lt _ (by omega)
    rcases Nat.eq_zero_or_pos n with h0 | h1
    · subst h0
      have hcond : ¬ c ≤ dAfter c 0 := by simp [dAfter]; omega
      simp only [dstep, if_neg hcond]
      have hA : dAfter c 1 = 1 := by simp [dAfter]
      have hF : fires c 1 = [] := by simp [fires, List.range_succ]
      rw [hA, hF]
      simp [dAfter, fires]
    · have hAn : dAfter c n = (n - 1) % c + 1 := by
        simp [dAfter]
        omega
      by_cases hdvd : c ∣ n
      · have heq : (n - 1) % c + 1 = c := (mod_pred_succ_eq c n hc h1).mpr hdvd
        have hcond : c ≤ dAfter c n := by omega
        simp only [dstep, if_pos hcond]
        have hnmod : n % c = 0 := by
          obtain ⟨k, rfl⟩ := hdvd
          exact Nat.mul_mod_right c k
        have hA : dAfter c (n + 1) = 1 := by
          simp only [dAfter, if_neg (by omega : ¬ n + 1 = 0), Nat.add_sub_cancel]
          omega
        have hF : fires c (n + 1) = fires c n ++ [n + 1] := by
          have hsome : (if 1 ≤ n ∧ c ∣ n then some (n + 1) else none) = some (n + 1) :=
            if_pos ⟨h1, hdvd⟩
          simp only [fires, List.range_succ, List.filterMap_append, List.filterMap_cons,
            hsome, List.filterMap_nil]
        rw [hA, hF]
      · have hne : (n - 1) % c + 1 ≠ c := fun h => hdvd ((mod_pred_succ_eq c n hc h1).mp h)
        have hcond : ¬ c ≤ dAfter c n := by omega
        simp only [dstep, if_neg hcond]
        have hc2 : 2 ≤ c := by
          rcases Nat.lt_or_ge c 2 with h2 | h2
          · exfalso
            have hceq : c = 1 := by omega
            exact hdvd (hceq ▸ one_dvd n)
          · exact h2
        have hmod : n % c = (n - 1) % c + 1 := by
          have h3 : n = (n - 1) + 1 := by omega
          conv_lhs => rw [h3]
          rw [Nat.add_mod, Nat.mod_eq_of_lt (show 1 < c by omega),
            Nat.mod_eq_of_lt (by omega : (n - 1) % c + 1 < c)]
        have hA : dAfter c (n + 1) = dAfter c n + 1 := by
          simp only [dAfter, if_neg (by omega : ¬ n + 1 = 0), Nat.add_sub_cancel,
            if_neg (by omega : ¬ n = 0)]
          omega
        have hF : fires c (n + 1) = fires c n := by
          have hnone : (if 1 ≤ n ∧ c ∣ n then some (n + 1) else none) = none := by
            rw [if_neg]
            intro hand
            exact hdvd hand.2
          simp only [fires, List.range_succ, List.filterMap_append, List.filterMap_cons,
            hnone, List.filterMap_nil]
          simp
        rw [hA, hF]

theorem mc_trial_dtriple (ec gc c : ℕ) (sdb accept : Bool) (s : MCSt) :
    ((mc_trial ec gc c sdb accept s).dconf, (mc_trial ec gc c sdb accept s).trial,
      (mc_trial ec gc c sdb accept s).dispUpdates)
      = dstep c (s.dconf, s.trial, s.dispUpdates) := by
  cases accept <;>
    by_cases h : c ≤ s.dconf <;>
      simp [mc_trial, check_disp, dstep, h]

theorem mc_loop_dtriple (T c ec gc : ℕ) (outcome : ℕ → Option Bool) (sd : ℕ → Bool)
    (hout : ∀ t, (outcome t).isSome) :
    ∀ fuel s, s.conf + fuel ≤ T →
      (((mc_loop T c ec gc outcome sd fuel s).1).dconf,
        ((mc_loop T c ec gc outcome sd fuel s).1).trial,
        ((mc_loop T c ec gc outcome sd fuel s).1).dispUpdates)
        = (dstep c)^[fuel] (s.dconf, s.trial, s.dispUpdates) := by
  intro fuel
  induction fuel with
  | zero =>
    intro s hs
    simp only [mc_loop, Function.iterate_zero_apply]
    split <;> rfl
  | succ n ih =>
    intro s hs
    have hlt : s.conf < T := by omega
    cases ho : outcome s.trial with
    | none =>
      have := hout s.trial
      rw [ho] at this
      simp at this
    | some b =>
      simp only [mc_loop, if_pos hlt, ho]
      rw [Function.iterate_succ_apply, ← mc_trial_dtriple ec gc c (sd s.trial) b s]
      apply ih
      have hconf := mc_trial_conf ec gc c (sd s.trial) b s
      cases b <;> simp at hconf <;> omega

/-- C6 (amended).  With `configs_between_displacement_update = c ≥ 1`, the MC
run invokes the adaptive-displacement controller once every `c` trials, both
accepted and rejected trials counting and the cadence counter being reset at
each invocation — but offset by one trial: within the first `n` trials the
invocations happen exactly at trials `k*c + 1` for `k ≥ 1` (the `fires` list),
not at trials `k*c`; after `n` trials the cadence counter `dconf` holds
`(n-1) % c + 1`. -/
theorem disp_update_cadence (c T ec gc n : ℕ) (outcome : ℕ → Option Bool) (sd : ℕ → Bool)
    (sd0 : Bool) (hc : 1 ≤ c) (hn : n ≤ T) (hout : ∀ t, (outcome t).isSome) :
    ((mc_loop T c ec gc outcome sd n (mc_start ec gc sd0)).1).dispUpdates = fires c n
  ∧ ((mc_loop T c ec gc outcome sd n (mc_start ec gc sd0)).1).trial = n + 1
  ∧ ((mc_loop T c ec gc outcome sd n (mc_start ec gc sd0)).1).dconf = dAfter c n := by
  have h0 := mc_loop_dtriple T c ec gc outcome sd hout n (mc_start ec gc sd0)
    (by show 0 + n ≤ T; omega)
  have hs : ((mc_start ec gc sd0).dconf, (mc_start ec gc sd0).trial,
      (mc_start ec gc sd0).dispUpdates) = (0, 1, ([] : List ℕ)) := rfl
  rw [hs, dstep_iterate c hc n] at h0
  have h1 := congrArg Prod.fst h0
  have h2 := congrArg (fun p => p.2.1) h0
  have h3 := congrArg (fun p => p.2.2) h0
  exact ⟨h3, h2, h1⟩

theorem disp_update_cadence_witness :
    (1 ≤ 2 ∧ (5 : ℕ) ≤ 5)
  ∧ ((mc_loop 5 2 100 100 (fun _ => some true) (fun _ => false) 5
        (mc_start 100 100 false)).1).dispUpdates = fires 2 5 :=
  ⟨⟨by decide, by decide⟩,
    (disp_update_cadence 2 5 100 100 5 (fun _ => some true) (fun _ => false) false
      (by decide) (by decide) (fun t => rfl)).1⟩

/-- C6 counterexample.  With `dispconf = 2`, after exactly 2 trials of a
concrete MC run no controller invocation has been recorded — although the
claim places the first (`k = 1`) invocation on trial `k*c = 2` — and after 3
trials the recorded invocation list is `[3]`: the first invocation happens on
trial `c + 1`. -/
theorem disp_update_not_at_kc :
    ((mc_loop 5 2 100 100 (fun _ => some true) (fun _ => false) 2
        (mc_start 100 100 false)).1).dispUpdates = []
  ∧ ((mc_loop 5 2 100 100 (fun _ => some true) (fun _ => false) 3
        (mc_start 100 100 false)).1).dispUpdates = [3] := by
  constructor <;> decide

/-- C7 counterexample.  With gradient 1 and unit mass, the code stores
`accs = -acc_conv * 1 / 1 = -418.4`, whereas the claim's formula
`-ACC_CONV * force / mass` with `force` the negated gradient (`force = -1`)
evaluates to `+418.4`. -/
theorem update_accs_sign_mismatch :
    ((update_accs (fun _ _ => 1) [atomEx])[0]?).map (fun a => a.accs 0)
      ≠ some (-acc_conv * (-(1 : ℝ)) / atomEx.mass) := by
  intro h
  simp only [update_accs, mapIdxFrom, List.getElem?_cons_zero, Option.map_some'] at h
  have h' := Option.some.inj h
  rw [atomEx, acc_conv] at h'
  norm_num at h'

theorem rand_row {α : Type} (stream : ℕ → α) (i : ℕ) (f : (ℕ × ℕ) → α) (p : ℕ) :
    (List.range 3).foldl (rand_step stream i) (f, p)
      = (Function.update (Function.update (Function.update f (i, 0) (stream (p + 1)))
          (i, 1) (stream (p + 2 + 1))) (i, 2) (stream (p + 2 + 2 + 1)), p + 2 + 2 + 2) :=
  rfl

/-- C10.  One call of `get_rand_disp` with `N` atoms advances the random
stream position by exactly `6 * N` (two Gaussian draws per coordinate
component, `3 * N` components), and every displacement component `(i, j)`
receives the second draw of its pair — the draw at stream offset
`2 * (3 * i + j) + 1` — the first draw of each pair (`randval`) being
discarded; the next draw after the call therefore comes from position
`pos + 6 * N`, so the subsequent random sequence is shifted by the discarded
draws as well. -/
theorem get_rand_disp_spec {α : Type} [Zero α] (stream : ℕ → α) (N p0 : ℕ) :
    (get_rand_disp N stream p0).2 = p0 + 6 * N
  ∧ ∀ i j, i < N → j < 3 →
      (get_rand_disp N stream p0).1 (i, j) = stream (p0 + 2 * (3 * i + j) + 1) := by
  induction N with
  | zero =>
    constructor
    · simp [get_rand_disp]
    · intro i j hi hj
      omega
  | succ N ih =>
    obtain ⟨hpos, hval⟩ := ih
    have hsplit : get_rand_disp (N + 1) stream p0
        = (List.range 3).foldl (rand_step stream N) (get_rand_disp N stream p0) := by
      simp [get_rand_disp, List.range_succ, List.foldl_append]
    constructor
    · rw [hsplit, ← @Prod.mk.eta _ _ (get_rand_disp N stream p0), rand_row]
      show (get_rand_disp N stream p0).2 + 2 + 2 + 2 = p0 + 6 * (N + 1)
      rw [hpos]
      ring
    · intro i j hi hj
      rw [hsplit, ← @Prod.mk.eta _ _ (get_rand_disp N stream p0), rand_row]
      show Function.update (Function.update (Function.update
          (get_rand_disp N stream p0).1 (N, 0)
            (stream ((get_rand_disp N stream p0).2 + 1)))
          (N, 1) (stream ((get_rand_disp N stream p0).2 + 2 + 1)))
          (N, 2) (stream ((get_rand_disp N stream p0).2 + 2 + 2 + 1)) (i, j)
        = stream (p0 + 2 * (3 * i + j) + 1)
      rcases Nat.lt_or_ge i N with hiN | hiN
      · rw [Function.update_noteq (by simp only [ne_eq, Prod.mk.injEq, not_and]; omega),
          Function.update_noteq (by simp only [ne_eq, Prod.mk.injEq, not_and]; omega),
          Function.update_noteq (by simp only [ne_eq, Prod.mk.injEq, not_and]; omega)]
        exact hval i j hiN hj
      · have hieq : i = N := by omega
        subst hieq
        interval_cases j
        · rw [Function.update_noteq (by simp only [ne_eq, Prod.mk.injEq, not_and]; omega),
            Function.update_noteq (by simp only [ne_eq, Prod.mk.injEq, not_and]; omega),
            Function.update_same, hpos]
          congr 1
          ring
        · rw [Function.update_noteq (by simp only [ne_eq, Prod.mk.injEq, not_and]; omega),
            Function.update_same, hpos]
          congr 1
          ring
        · rw [Function.update_same, hpos]
          congr 1
          ring

theorem get_rand_disp_spec_witness :
    ((1 : ℕ) < 2 ∧ (2 : ℕ) < 3)
  ∧ (get_rand_disp 2 (fun k => k) 0).2 = 0 + 6 * 2
  ∧ (get_rand_disp 2 (fun k => k) 0).1 (1, 2) = (fun k => k) (0 + 2 * (3 * 1 + 2) + 1) :=
  ⟨⟨by decide, by decide⟩, (get_rand_disp_spec (fun k => k) 2 0).1,
    (get_rand_disp_spec (fun k => k) 2 0).2 1 2 (by decide) (by decide)⟩

end Simulate
